import Mathlib

/-!
Shallow embedding of the client-side record store and week view of the
timesheet-parser repository (src/static/script.js, with the older variant in
src/unnamed/part_000 where the claims cite it).

Conventions of the embedding:
- A JavaScript object used as a dictionary is an association list in insertion
  order (`Object.entries` enumerates string keys in insertion order for the
  non-integer-like keys this program uses; assignment to an existing key keeps
  its position, assignment to a fresh key appends, `delete` removes).
- An optional / possibly-absent string field is `Option String`; JavaScript
  truthiness of such a field (absent, `null` and `""` are falsy) is the
  predicate `present`.
- JavaScript numbers arising here are exact rationals (ℚ); `NaN` is modelled
  by `none` in `Option ℚ`, and addition with `NaN` propagates it.
-/

namespace Timesheet

/-- One weekday's schedule entry: `{ date, start, end, area, note }`, each
field an optional string (script.js reads `day.date`, `day.start`, `day.end`,
`day.area`, `day.note`). -/
structure DaySlot where
  date : Option String
  start : Option String
  «end» : Option String
  area : Option String
  note : Option String
deriving DecidableEq, Repr

/-- One parsed week as delivered by the backend: `week_ending` (optional),
`dates` (array of strings, possibly with empty placeholders) and the
weekday-name → DaySlot mapping `days`. -/
structure WeekRecord where
  week_ending : Option String
  dates : List String
  days : List (String × DaySlot)
deriving DecidableEq, Repr

/-- The persisted mapping week-key → record, as a JavaScript object in
insertion order. -/
abbrev Store := List (String × WeekRecord)

/-- JavaScript truthiness of a possibly-absent string field: `undefined`,
`null` and `""` are falsy, every other string is truthy. -/
def present (o : Option String) : Bool :=
  match o with
  | none => false
  | some s => !(s == "")

/-- Property read `stored[k]` on an object: the value at key `k`, if any. -/
def lookupKey (store : Store) (k : String) : Option WeekRecord :=
  (store.find? (fun p => p.1 == k)).map (·.2)

/-- Property read `weekData.days[name]`. -/
def lookupDay (days : List (String × DaySlot)) (name : String) : Option DaySlot :=
  (days.find? (fun p => p.1 == name)).map (·.2)

/-- Key derivation of `saveTimesheetData` (script.js line 73):
`data.week_ending || data.dates.join('/')` — the truthy `week_ending` if any,
else the join of ALL dates (empty placeholders included) by `/`. -/
def deriveKey (data : WeekRecord) : String :=
  if present data.week_ending then data.week_ending.getD ""
  else String.intercalate "/" data.dates

/-- Object assignment `stored[key] = data`: overwrite in place when the key
exists, else append. -/
def setKey (store : Store) (key : String) (data : WeekRecord) : Store :=
  if store.any (fun p => p.1 == key) then
    store.map (fun p => if p.1 == key then (key, data) else p)
  else
    store ++ [(key, data)]

/-- The filter `data.dates.filter(d => d)` of `saveTimesheetData` line 74:
the truthy (non-empty) incoming dates. -/
def datesToCheck (data : WeekRecord) : List String :=
  data.dates.filter (fun d => !(d == ""))

/-- The overlap test of `saveTimesheetData` line 77:
`datesToCheck.some(date => existingDates.includes(date))` — some truthy
incoming date occurs in the existing record's dates. -/
def overlapsWith (data : WeekRecord) (existingData : WeekRecord) : Bool :=
  (datesToCheck data).any (fun date => existingData.dates.contains date)

/-- The store-update portion of `saveTimesheetData` (script.js lines 72-81):
derive the key, filter the incoming dates to the truthy ones, delete every
existing entry whose dates meet the incoming ones and whose key differs, then
assign the record at the key.  (`Object.entries` snapshots the entries before
the loop, so deleting inside the loop is plain filtering; the part_000 variant
collects `keysToRemove` first and deletes the ones with `oldKey !== key`
afterwards, which updates the object identically.) -/
def insertRecord (stored : Store) (data : WeekRecord) : Store :=
  let key := deriveKey data
  let remaining := stored.filter (fun p =>
    !(overlapsWith data p.2 && !(p.1 == key)))
  setKey remaining key data

/-- Modelled from the spec: the state of the persistence medium
(`localStorage` slot `timesheetData`), identified with the parse outcome of
the stored JSON blob — absent (`getItem` gives `null`), unparseable text, or
the serialization of a store (spec §6: the blob is the JSON of the
WeekKey → WeekRecord mapping, and `JSON.stringify` / `JSON.parse` round-trip
it). -/
inductive PersistedState where
  | missing : PersistedState
  | corrupt : PersistedState
  | valid : Store → PersistedState
deriving DecidableEq, Repr

/-- Embedding of `getStoredData` (script.js lines 85-88):
`JSON.parse(getItem('timesheetData') || '\x7b\x7d')` under `try`, with the
`catch` returning the empty object — missing data parses the literal empty
object, corrupt data lands in the `catch`. -/
def getStoredData (p : PersistedState) : Store :=
  match p with
  | .missing => []
  | .corrupt => []
  | .valid s => s

/-- Embedding of the whole of `saveTimesheetData` (script.js lines 71-83) as
a transition on the persisted state: read the store, update it with
`insertRecord`, then perform the single `setItem` write.  `quotaOk` is
whether the persistence medium accepts the write; when it does not,
`setItem` throws (the error propagates out of `saveTimesheetData`, surfacing
to its caller) and writes nothing, so the persisted state is unchanged. -/
def saveTimesheetData (quotaOk : Bool) (p : PersistedState) (data : WeekRecord) :
    Except String Unit × PersistedState :=
  let stored := getStoredData p
  let updated := insertRecord stored data
  if quotaOk then (Except.ok (), PersistedState.valid updated)
  else (Except.error "QuotaExceededError", p)

/-- Split of a character list at every occurrence of `sep`, keeping empty
pieces, as JavaScript `String.prototype.split` with a one-character
separator does. -/
def splitChars (sep : Char) : List Char → List (List Char)
  | [] => [[]]
  | c :: cs =>
    match splitChars sep cs with
    | [] => [[]]
    | g :: gs => if c = sep then [] :: g :: gs else (c :: g) :: gs

/-- JavaScript `s.split(sep)` for a one-character separator: the list of
pieces between occurrences of `sep`, empty pieces included, `[""]` on the
empty string. -/
def jsSplit (sep : Char) (s : String) : List String :=
  (splitChars sep s.toList).map (fun l => String.mk l)

/-- The value of a decimal digit, `none` on any other character. -/
def digitVal (c : Char) : Option Nat :=
  if '0' ≤ c ∧ c ≤ '9' then some (c.toNat - '0'.toNat) else none

/-- Value of a run of decimal digits (most significant first), `none` as
soon as a non-digit appears. -/
def digitsVal (acc : Nat) : List Char → Option Nat
  | [] => some acc
  | c :: cs =>
    match digitVal c with
    | none => none
    | some d => digitsVal (acc * 10 + d) cs

/-- Modelled from the spec: JavaScript `Number` coercion of the strings this
program feeds it — key components and `split(':')` parts, which are decimal
digit runs or empty.  The empty string coerces to `0`; a decimal digit run to
its value; anything else here is treated as `NaN`, i.e. `none`. -/
def jsNumber (s : String) : Option Int :=
  match s.toList with
  | [] => some 0
  | c :: cs => (digitsVal 0 (c :: cs)).map Int.ofNat

/-- Embedding of `_timeToHours` (script.js lines 114-117):
`const [hours, minutes] = timeStr.split(':').map(Number); return
hours + minutes / 60`.  Destructuring takes the first two split parts; a
missing second part is `Number(undefined) = NaN`.  `none` is `NaN`. -/
def timeToHours (timeStr : String) : Option ℚ :=
  let parts := jsSplit ':' timeStr
  match (parts.get? 0).bind jsNumber, (parts.get? 1).bind jsNumber with
  | some hours, some minutes => some ((hours : ℚ) + (minutes : ℚ) / 60)
  | _, _ => none

/-- Modelled from the spec: days since the epoch of the Gregorian civil date
`y-m-d` with `m` in 1..12 (`d` may exceed the month and rolls over linearly,
as the `Date` timestamp does). -/
def daysFromCivil (y m d : Int) : Int :=
  let y2 := if m ≤ 2 then y - 1 else y
  let era := y2.fdiv 400
  let yoe := y2 - era * 400
  let mp := (m + 9).emod 12
  let doy := (153 * mp + 2).fdiv 5 + d - 1
  let doe := yoe * 365 + yoe.fdiv 4 - yoe.fdiv 100 + doy
  era * 146097 + doe - 719468

/-- Modelled from the spec: the timestamp (in days, which orders and ties
exactly as the millisecond timestamp does for local midnights) of
`new Date(y, m, d)` — year values 0..99 map to 1900..1999, and an
out-of-range month index rolls into the year. -/
def dateValue (y m d : Int) : Int :=
  let yAdj := if 0 ≤ y ∧ y ≤ 99 then 1900 + y else y
  let total := yAdj * 12 + m
  daysFromCivil (total.fdiv 12) (total.emod 12 + 1) d

/-- Decoding of a week key as the sort comparator of `refreshWeekList`
(script.js line 103) does it: `key.split('/')` read as `[day, month, year]`
and fed to `new Date(year, month - 1, day)`; `none` when a component is
missing or does not coerce to a number (an invalid date, `NaN` timestamp). -/
def keyVal (k : String) : Option Int :=
  let parts := jsSplit '/' k
  match (parts.get? 0).bind jsNumber, (parts.get? 1).bind jsNumber,
      (parts.get? 2).bind jsNumber with
  | some d, some m, some y => some (dateValue y (m - 1) d)
  | _, _, _ => none

/-- The comparator of `refreshWeekList` line 103 on two keys: timestamp of
`keyB` minus timestamp of `keyA` (descending); a `NaN` difference acts as
`+0` in `Array.prototype.sort`, leaving the pair unordered. -/
def keyCompare (keyA keyB : String) : Int :=
  match keyVal keyA, keyVal keyB with
  | some a, some b => b - a
  | _, _ => 0

/-- Stable insertion into a sorted list: `x` goes before the first `y` it
may precede (`le x y`), hence before later-inserted equals. -/
def insertSorted (le : α → α → Bool) (x : α) : List α → List α
  | [] => [x]
  | y :: ys => if le x y then x :: y :: ys else y :: insertSorted le x ys

/-- Stable sort by `le` (JavaScript `Array.prototype.sort` is required to be
stable, and for a consistent comparator every stable sort returns the same
sequence). -/
def sortByLe (le : α → α → Bool) : List α → List α
  | [] => []
  | x :: xs => insertSorted le x (sortByLe le xs)

/-- Whether entry `p` may sort before entry `q`: the line-103 comparator on
their keys is non-positive. -/
def entryLe (p q : String × WeekRecord) : Bool :=
  keyCompare p.1 q.1 ≤ 0

/-- The week list built by `refreshWeekList` (script.js lines 92-111): the
store's entries sorted by the date comparator on their keys — descending,
since the comparator is `dateOf keyB - dateOf keyA` — then the keys in that
order (each becomes one `<option>`). -/
def refreshWeekList (stored : Store) : List String :=
  (sortByLe entryLe stored).map (·.1)

/-- One rendered `<tr>` of the schedule table. -/
structure Row where
  dayName : String
  dateText : String
  timeText : String
  notesText : String
deriving DecidableEq, Repr

/-- The texts of one weekday row of `displaySelectedWeek` (script.js lines
132-157): `timeText` is `start - end` when both are truthy, the bare `start`
when only it is, else `Off`; `notesText` joins the truthy ones among `area`
and `note` with a comma; the date cell is `day.date || ''`. -/
def rowOf (dayName : String) (day : DaySlot) : Row :=
  let timeText :=
    if present day.start && present day.«end» then
      (day.start.getD "") ++ " - " ++ (day.«end».getD "")
    else if present day.start then day.start.getD ""
    else "Off"
  let notes :=
    (if present day.area then [day.area.getD ""] else []) ++
    (if present day.note then [day.note.getD ""] else [])
  ⟨dayName, day.date.getD "", timeText, String.intercalate ", " notes⟩

/-- The contribution of one weekday to `totalHours` (script.js lines
137-142): `endHours - startHours` when both times are truthy (`NaN` when a
truthy time fails to parse), `0` otherwise (the accumulator is untouched). -/
def dayContrib (day : DaySlot) : Option ℚ :=
  if present day.start && present day.«end» then
    match timeToHours (day.start.getD ""), timeToHours (day.«end».getD "") with
    | some s, some e => some (e - s)
    | _, _ => none
  else some 0

/-- The fixed weekday order of `displaySelectedWeek` (script.js line 130). -/
def daysOrder : List String := ["Monday", "Tuesday", "Wednesday", "Thursday", "Friday"]

/-- The displayed result: the five rows and the accumulated total
(`none` is a `NaN` total; rounding via `toFixed(2)` happens only in the
summary string, never in the accumulator). -/
structure WeekDisplay where
  rows : List Row
  totalHours : Option ℚ
deriving DecidableEq, Repr

/-- Outcome of `displaySelectedWeek`: the results section hidden (early
return), a rendered display, or an uncaught `TypeError` from reading a
property of `undefined`. -/
inductive DisplayOutcome where
  | noDisplay : DisplayOutcome
  | shown : WeekDisplay → DisplayOutcome
  | jsError : DisplayOutcome
deriving DecidableEq, Repr

/-- The per-day loop of `displaySelectedWeek` over `daysOrder`:
`weekData.days[dayName]` is read and dereferenced with no guard, so a
missing weekday aborts with a `TypeError` (`none`); otherwise the row is
appended and the total updated (a `NaN` contribution poisons the total). -/
def buildRows (weekData : WeekRecord) : Option (List Row × Option ℚ) :=
  daysOrder.foldl
    (fun acc dayName =>
      match acc with
      | none => none
      | some (rows, total) =>
        match lookupDay weekData.days dayName with
        | none => none
        | some day =>
          some (rows ++ [rowOf dayName day],
            total.bind (fun t => (dayContrib day).map (fun c => t + c))))
    (some ([], some 0))

/-- Embedding of `displaySelectedWeek` (script.js lines 119-163): a falsy
selected key or an absent record hides the results section; otherwise the
five weekday rows and the running `totalHours` are produced (or the uncaught
`TypeError` when a weekday slot is missing). -/
def displaySelectedWeek (stored : Store) (selectedKey : String) : DisplayOutcome :=
  if selectedKey == "" then .noDisplay
  else
    match lookupKey stored selectedKey with
    | none => .noDisplay
    | some weekData =>
      match buildRows weekData with
      | none => .jsError
      | some (rows, total) => .shown ⟨rows, total⟩

/-! Helper lemmas about the store operations. -/

lemma find?_map_setKey_self (k : String) (d : WeekRecord) :
    ∀ (s : Store), s.any (fun p => p.1 == k) = true →
      (s.map (fun p => if p.1 == k then (k, d) else p)).find? (fun p => p.1 == k) =
        some (k, d)
  | [], h => by simp at h
  | p :: t, h => by
    simp only [List.any_cons, Bool.or_eq_true] at h
    by_cases hp : (p.1 == k) = true
    · simp only [List.map_cons, if_pos hp]
      exact List.find?_cons_of_pos _ (by simp)
    · simp only [List.map_cons, if_neg hp]
      rw [List.find?_cons_of_neg _ (by simpa using hp)]
      exact find?_map_setKey_self k d t (h.resolve_left hp)

lemma find?_none_of_any_false (k : String) (s : Store)
    (h : s.any (fun p => p.1 == k) = false) :
    s.find? (fun p => p.1 == k) = none := by
  rw [List.find?_eq_none]
  intro x hx
  rw [List.any_eq_false] at h
  exact fun hc => h x hx hc

lemma find?_setKey_self (s : Store) (k : String) (d : WeekRecord) :
    (setKey s k d).find? (fun p => p.1 == k) = some (k, d) := by
  unfold setKey
  cases hany : s.any (fun p => p.1 == k) with
  | true =>
    rw [if_pos rfl]
    exact find?_map_setKey_self k d s hany
  | false =>
    rw [if_neg Bool.false_ne_true]
    rw [List.find?_append, find?_none_of_any_false k s hany]
    simp

/-- Object assignment stores the value at the key: reading the key back
gives the assigned record. -/
lemma lookupKey_setKey_self (s : Store) (k : String) (d : WeekRecord) :
    lookupKey (setKey s k d) k = some d := by
  simp [lookupKey, find?_setKey_self]

/-- `insertRecord` always maps the derived key to the inserted record. -/
lemma lookupKey_insertRecord_self (s : Store) (r : WeekRecord) :
    lookupKey (insertRecord s r) (deriveKey r) = some r := by
  unfold insertRecord
  exact lookupKey_setKey_self _ _ _

lemma find?_map_setKey_ne (k : String) (d : WeekRecord) (k' : String) (h : k' ≠ k) :
    ∀ (s : Store),
      (s.map (fun p => if p.1 == k then (k, d) else p)).find? (fun p => p.1 == k') =
        s.find? (fun p => p.1 == k')
  | [] => rfl
  | p :: t => by
    by_cases hp : (p.1 == k) = true
    · have hpk : p.1 = k := by simpa using hp
      have h1 : ((k, d).1 == k') = false := by simp [Ne.symm h]
      have h2 : (p.1 == k') = false := by simp [hpk, Ne.symm h]
      simp only [List.map_cons, if_pos hp, List.find?_cons, h1, h2]
      exact find?_map_setKey_ne k d k' h t
    · simp only [List.map_cons, if_neg hp]
      cases hpk' : (p.1 == k') with
      | true => simp only [List.find?_cons, hpk']
      | false =>
        simp only [List.find?_cons, hpk']
        exact find?_map_setKey_ne k d k' h t

/-- Object assignment at one key leaves reads at every other key alone. -/
lemma lookupKey_setKey_ne (s : Store) (k : String) (d : WeekRecord) (k' : String)
    (h : k' ≠ k) : lookupKey (setKey s k d) k' = lookupKey s k' := by
  unfold setKey lookupKey
  cases hany : s.any (fun p => p.1 == k) with
  | true =>
    rw [if_pos rfl, find?_map_setKey_ne k d k' h s]
  | false =>
    rw [if_neg Bool.false_ne_true, List.find?_append]
    have h1 : List.find? (fun p => p.1 == k') [(k, d)] = none := by
      simp [Ne.symm h]
    rw [h1, Option.or_none]

/-- Two entries of a store with no duplicate keys that carry the same key
are the same entry. -/
lemma entry_unique (s : Store) (hnd : (s.map Prod.fst).Nodup)
    (p q : String × WeekRecord) (hp : p ∈ s) (hq : q ∈ s) (hpq : p.1 = q.1) :
    p = q := by
  induction s with
  | nil => cases hp
  | cons a t ih =>
    simp only [List.map_cons, List.nodup_cons] at hnd
    rcases List.mem_cons.mp hp with rfl | hp'
    · rcases List.mem_cons.mp hq with rfl | hq'
      · rfl
      · exact absurd (hpq ▸ List.mem_map_of_mem Prod.fst hq') hnd.1
    · rcases List.mem_cons.mp hq with rfl | hq'
      · exact absurd (hpq ▸ List.mem_map_of_mem Prod.fst hp') hnd.1
      · exact ih hnd.2 hp' hq'

/-! Helper lemmas about the stable sort. -/

lemma perm_insertSorted (le : α → α → Bool) (x : α) :
    ∀ (l : List α), List.Perm (insertSorted le x l) (x :: l)
  | [] => List.Perm.refl _
  | y :: ys => by
    unfold insertSorted
    by_cases h : le x y = true
    · rw [if_pos h]
    · rw [if_neg h]
      exact ((perm_insertSorted le x ys).cons y).trans (List.Perm.swap x y ys)

lemma perm_sortByLe (le : α → α → Bool) :
    ∀ (l : List α), List.Perm (sortByLe le l) l
  | [] => List.Perm.refl _
  | x :: xs =>
    (perm_insertSorted le x (sortByLe le xs)).trans ((perm_sortByLe le xs).cons x)

lemma mem_insertSorted (le : α → α → Bool) (x : α) (l : List α) (y : α) :
    y ∈ insertSorted le x l ↔ y = x ∨ y ∈ l := by
  rw [(perm_insertSorted le x l).mem_iff, List.mem_cons]

lemma pairwise_insertSorted (le : α → α → Bool) (x : α) :
    ∀ (l : List α),
      (∀ a b, a ∈ x :: l → b ∈ x :: l → le a b = false → le b a = true) →
      (∀ a b c, a ∈ x :: l → b ∈ x :: l → c ∈ x :: l →
        le a b = true → le b c = true → le a c = true) →
      l.Pairwise (fun a b => le a b = true) →
      (insertSorted le x l).Pairwise (fun a b => le a b = true)
  | [], _, _, _ => List.pairwise_singleton _ x
  | y :: ys, htot, htrans, hp => by
    unfold insertSorted
    rcases List.pairwise_cons.mp hp with ⟨hy, hys⟩
    by_cases h : le x y = true
    · rw [if_pos h]
      refine List.pairwise_cons.mpr ⟨?_, hp⟩
      intro z hz
      rcases List.mem_cons.mp hz with rfl | hz'
      · exact h
      · exact htrans x y z (by simp) (by simp) (by simp [hz'])
          h (hy z hz')
    · rw [if_neg h]
      have step : ∀ a, a ∈ x :: ys → a ∈ x :: y :: ys := by
        intro a ha
        rcases List.mem_cons.mp ha with rfl | h2
        · exact List.mem_cons_self _ _
        · exact List.mem_cons_of_mem _ (List.mem_cons_of_mem _ h2)
      refine List.pairwise_cons.mpr ⟨?_, ?_⟩
      · intro z hz
        rcases (mem_insertSorted le x ys z).mp hz with rfl | hz'
        · exact htot z y (by simp) (by simp) (by simpa using h)
        · exact hy z hz'
      · refine pairwise_insertSorted le x ys ?_ ?_ hys
        · intro a b ha hb
          exact htot a b (step a ha) (step b hb)
        · intro a b c ha hb hc
          exact htrans a b c (step a ha) (step b hb) (step c hc)

lemma pairwise_sortByLe (le : α → α → Bool) :
    ∀ (l : List α),
      (∀ a b, a ∈ l → b ∈ l → le a b = false → le b a = true) →
      (∀ a b c, a ∈ l → b ∈ l → c ∈ l →
        le a b = true → le b c = true → le a c = true) →
      (sortByLe le l).Pairwise (fun a b => le a b = true)
  | [], _, _ => List.Pairwise.nil
  | x :: xs, htot, htrans => by
    unfold sortByLe
    have hmem : ∀ z, z ∈ x :: sortByLe le xs → z ∈ x :: xs := by
      intro z hz
      rcases List.mem_cons.mp hz with rfl | hz'
      · simp
      · exact List.mem_cons_of_mem x ((perm_sortByLe le xs).mem_iff.mp hz')
    refine pairwise_insertSorted le x (sortByLe le xs) ?_ ?_ ?_
    · intro a b ha hb
      exact htot a b (hmem a ha) (hmem b hb)
    · intro a b c ha hb hc
      exact htrans a b c (hmem a ha) (hmem b hb) (hmem c hc)
    · refine pairwise_sortByLe le xs ?_ ?_
      · intro a b ha hb
        exact htot a b (List.mem_cons_of_mem x ha) (List.mem_cons_of_mem x hb)
      · intro a b c ha hb hc
        exact htrans a b c (List.mem_cons_of_mem x ha) (List.mem_cons_of_mem x hb)
          (List.mem_cons_of_mem x hc)

/-- A permutation that is sorted on both sides by a relation antisymmetric on
its elements is an equality. -/
lemma eq_of_perm_of_pairwise (le : α → α → Bool) :
    ∀ (l₁ l₂ : List α),
      (∀ a b, a ∈ l₁ → b ∈ l₁ → le a b = true → le b a = true → a = b) →
      List.Perm l₁ l₂ →
      l₁.Pairwise (fun a b => le a b = true) →
      l₂.Pairwise (fun a b => le a b = true) →
      l₁ = l₂
  | [], l₂, _, hperm, _, _ => hperm.nil_eq
  | a :: t₁, [], _, hperm, _, _ => absurd hperm.eq_nil (by simp)
  | a :: t₁, b :: t₂, hanti, hperm, h₁, h₂ => by
    rcases List.pairwise_cons.mp h₁ with ⟨ha, ht₁⟩
    rcases List.pairwise_cons.mp h₂ with ⟨hb, ht₂⟩
    by_cases hab : a = b
    · subst hab
      rw [eq_of_perm_of_pairwise le t₁ t₂
        (fun x y hx hy => hanti x y (List.mem_cons_of_mem a hx)
          (List.mem_cons_of_mem a hy))
        (hperm.cons_inv) ht₁ ht₂]
    · have hat₂ : a ∈ t₂ := by
        rcases List.mem_cons.mp (hperm.mem_iff.mp (List.mem_cons_self a t₁)) with h' | h'
        · exact absurd h' hab
        · exact h'
      have hbt₁ : b ∈ t₁ := by
        rcases List.mem_cons.mp (hperm.symm.mem_iff.mp (List.mem_cons_self b t₂)) with h' | h'
        · exact absurd h'.symm hab
        · exact h'
      exact absurd (hanti a b (by simp) (by simp [hbt₁]) (ha b hbt₁) (hb a hat₂)) hab

lemma lookupKey_cons_ne (p : String × WeekRecord) (l : Store) (k : String)
    (h : p.1 ≠ k) : lookupKey (p :: l) k = lookupKey l k := by
  simp only [lookupKey, List.find?_cons, show (p.1 == k) = false from by simp [h]]

lemma lookupKey_filter_of_mem (f : String × WeekRecord → Bool) :
    ∀ (s : Store), (s.map Prod.fst).Nodup → ∀ (k : String) (d : WeekRecord),
      (k, d) ∈ s → f (k, d) = true → lookupKey (s.filter f) k = some d
  | [], _, k, d, hmem, _ => absurd hmem (by simp)
  | p :: t, hnd, k, d, hmem, hf => by
    simp only [List.map_cons, List.nodup_cons] at hnd
    rcases List.mem_cons.mp hmem with heq | hmem'
    · rw [← heq, List.filter_cons, if_pos hf]
      simp [lookupKey, List.find?_cons]
    · have hk : k ∈ t.map Prod.fst := by
        simpa using List.mem_map_of_mem Prod.fst hmem'
      have hpk : p.1 ≠ k := fun h => hnd.1 (h ▸ hk)
      rw [List.filter_cons]
      by_cases hfp : f p = true
      · rw [if_pos hfp, lookupKey_cons_ne p _ k hpk]
        exact lookupKey_filter_of_mem f t hnd.2 k d hmem' hf
      · rw [if_neg hfp]
        exact lookupKey_filter_of_mem f t hnd.2 k d hmem' hf

lemma length_setKey_of_mem (s : Store) (k : String) (d : WeekRecord)
    (h : s.any (fun p => p.1 == k) = true) :
    (setKey s k d).length = s.length := by
  unfold setKey
  rw [if_pos h, List.length_map]

/-! Concrete sample data used by witnesses and counterexamples. -/

/-- A week record with `week_ending` "07/06/2024" and two dates. -/
def recA : WeekRecord :=
  { week_ending := some "07/06/2024", dates := ["03/06/2024", "04/06/2024"], days := [] }

/-- A week record overlapping `recA` on "04/06/2024" with a different key. -/
def recB : WeekRecord :=
  { week_ending := some "14/06/2024", dates := ["04/06/2024", "05/06/2024"], days := [] }

/-- A record with no `week_ending` and an empty placeholder amid its dates. -/
def recC2 : WeekRecord :=
  { week_ending := none, dates := ["01/01/2024", "", "02/01/2024"], days := [] }

/-! The claims. -/

/-- C1: for every store and every record whose derived key differs from an
existing entry's key, `insertRecord` removes every existing entry whose dates
intersect the record's non-empty-filtered dates, and maps the new key to the
record; in particular inserting `recA` then `recB` (overlapping non-empty
dates, distinct keys) leaves `recA`'s key absent and `recB`'s key mapped to
`recB`. -/
theorem insert_evicts_overlap_and_stores_new :
    (∀ (stored : Store) (r : WeekRecord) (ek : String) (ed : WeekRecord),
      (stored.map Prod.fst).Nodup →
      (ek, ed) ∈ stored →
      ek ≠ deriveKey r →
      overlapsWith r ed = true →
      lookupKey (insertRecord stored r) ek = none ∧
      lookupKey (insertRecord stored r) (deriveKey r) = some r) ∧
    (deriveKey recA ≠ deriveKey recB ∧
     overlapsWith recB recA = true ∧
     lookupKey (insertRecord (insertRecord [] recA) recB) (deriveKey recA) = none ∧
     lookupKey (insertRecord (insertRecord [] recA) recB) (deriveKey recB) = some recB) := by
  constructor
  · intro stored r ek ed hnd hmem hne hov
    refine ⟨?_, lookupKey_insertRecord_self stored r⟩
    simp only [insertRecord]
    rw [lookupKey_setKey_ne _ _ _ _ hne]
    have hfind : (stored.filter
        (fun p => !(overlapsWith r p.2 && !(p.1 == deriveKey r)))).find?
        (fun p => p.1 == ek) = none := by
      rw [List.find?_eq_none]
      intro p hp hbeq
      obtain ⟨hpmem, hpf⟩ := List.mem_filter.mp hp
      have hpek : p.1 = ek := by simpa using hbeq
      have hpeq : p = (ek, ed) :=
        entry_unique stored hnd p (ek, ed) hpmem hmem (by simpa using hpek)
      rw [hpeq] at hpf
      simp [hov, hne] at hpf
    unfold lookupKey
    rw [hfind]
    rfl
  · refine ⟨by decide, by decide, by decide, by decide⟩

/-- Witness for C1: the universal part applied to the one-entry store holding
`recA` and the incoming record `recB`. -/
theorem insert_evicts_overlap_and_stores_new_witness :
    lookupKey (insertRecord [(deriveKey recA, recA)] recB) (deriveKey recA) = none ∧
    lookupKey (insertRecord [(deriveKey recA, recA)] recB) (deriveKey recB) = some recB :=
  insert_evicts_overlap_and_stores_new.1 [(deriveKey recA, recA)] recB
    (deriveKey recA) recA (by decide) (by decide) (by decide) (by decide)

/-- C2 counterexample: the claim's key formula joins the dates filtered to the
non-empty ones, but the code joins all dates; on `recC2` (no `week_ending`,
dates with an empty placeholder) the derived key keeps the doubled slash and
the record is not stored under the claimed filtered-join key. -/
theorem derive_key_filtered_join_counterexample :
    recC2.week_ending = none ∧
    deriveKey recC2 ≠
      String.intercalate "/" (recC2.dates.filter (fun d => !(d == ""))) ∧
    deriveKey recC2 = "01/01/2024//02/01/2024" ∧
    lookupKey (insertRecord [] recC2) "01/01/2024/02/01/2024" = none ∧
    lookupKey (insertRecord [] recC2) "01/01/2024//02/01/2024" = some recC2 := by
  refine ⟨rfl, by decide, by decide, by decide, by decide⟩

/-- C2 amended: `insertRecord` stores the record under `week_ending` when that
is present (truthy), and otherwise under the join by "/" of ALL of the
record's dates, empty entries included. -/
theorem derive_key_weekEnding_or_unfiltered_join (stored : Store) (r : WeekRecord) :
    (present r.week_ending = true →
      lookupKey (insertRecord stored r) (r.week_ending.getD "") = some r) ∧
    (present r.week_ending = false →
      lookupKey (insertRecord stored r) (String.intercalate "/" r.dates) = some r) := by
  constructor
  · intro h
    have hk : deriveKey r = r.week_ending.getD "" := by
      unfold deriveKey
      rw [if_pos h]
    rw [← hk]
    exact lookupKey_insertRecord_self stored r
  · intro h
    have hk : deriveKey r = String.intercalate "/" r.dates := by
      unfold deriveKey
      rw [if_neg (by simp [h])]
    rw [← hk]
    exact lookupKey_insertRecord_self stored r

/-- Witness for the amended C2, at a record with a truthy `week_ending` and at
one without. -/
theorem derive_key_weekEnding_or_unfiltered_join_witness :
    lookupKey (insertRecord [] recA) (recA.week_ending.getD "") = some recA ∧
    lookupKey (insertRecord [] recC2) (String.intercalate "/" recC2.dates) = some recC2 :=
  ⟨(derive_key_weekEnding_or_unfiltered_join [] recA).1 (by decide),
   (derive_key_weekEnding_or_unfiltered_join [] recC2).2 (by decide)⟩

/-- A record stored under key "k1" with the single date "d1". -/
def recX5 : WeekRecord := { week_ending := some "k1", dates := ["d1"], days := [] }

/-- A record stored under key "k2" with the single date "d2". -/
def recY5 : WeekRecord := { week_ending := some "k2", dates := ["d2"], days := [] }

/-- A record with key "k1" whose dates meet both `recX5` and `recY5`. -/
def recR5 : WeekRecord := { week_ending := some "k1", dates := ["d1", "d2"], days := [] }

/-- C5 counterexample: re-inserting under an existing key does NOT always
leave the entry count unchanged — when the incoming record's dates also meet
an entry under a different key, that entry is still evicted.  Here `recR5`
re-uses `recX5`'s key "k1" but its dates also meet `recY5`, so the two-entry
store shrinks to one. -/
theorem samekey_insert_shrinks_store_counterexample :
    deriveKey recR5 = "k1" ∧
    ("k1", recX5) ∈ [("k1", recX5), ("k2", recY5)] ∧
    (insertRecord [("k1", recX5), ("k2", recY5)] recR5).length = 1 ∧
    ([("k1", recX5), ("k2", recY5)] : Store).length = 2 := by
  refine ⟨by decide, by decide, by decide, by decide⟩

/-- C5 amended: when the derived key matches an existing entry's key, that
entry is overwritten in place (even with overlapping dates) and entries whose
dates do not meet the incoming non-empty dates keep their values; the entry
count is unchanged provided no entry under a different key has intersecting
dates — such entries are still evicted. -/
theorem samekey_insert_overwrites_in_place (stored : Store) (r : WeekRecord)
    (old : WeekRecord) (hnd : (stored.map Prod.fst).Nodup)
    (hmem : (deriveKey r, old) ∈ stored) :
    lookupKey (insertRecord stored r) (deriveKey r) = some r ∧
    (∀ ek ed, (ek, ed) ∈ stored → ek ≠ deriveKey r → overlapsWith r ed = false →
      lookupKey (insertRecord stored r) ek = some ed) ∧
    ((∀ ek ed, (ek, ed) ∈ stored → ek ≠ deriveKey r → overlapsWith r ed = false) →
      (insertRecord stored r).length = stored.length) := by
  refine ⟨lookupKey_insertRecord_self stored r, ?_, ?_⟩
  · intro ek ed hed hne hov
    simp only [insertRecord]
    rw [lookupKey_setKey_ne _ _ _ _ hne]
    exact lookupKey_filter_of_mem _ stored hnd ek ed hed (by simp [hov])
  · intro hno
    simp only [insertRecord]
    have hself : stored.filter
        (fun p => !(overlapsWith r p.2 && !(p.1 == deriveKey r))) = stored := by
      rw [List.filter_eq_self]
      intro p hp
      by_cases hk : p.1 = deriveKey r
      · simp [hk]
      · simp [hno p.1 p.2 hp hk]
    rw [hself, length_setKey_of_mem]
    exact List.any_eq_true.mpr ⟨(deriveKey r, old), hmem, by simp⟩

/-- Witness for the amended C5: re-inserting `recR5` over its stored version
beside the non-overlapping `recY5` keeps both entries and the size. -/
theorem samekey_insert_overwrites_in_place_witness :
    lookupKey (insertRecord [("k1", recX5), ("k2", recY5)] recX5) (deriveKey recX5) =
      some recX5 ∧
    lookupKey (insertRecord [("k1", recX5), ("k2", recY5)] recX5) "k2" = some recY5 ∧
    (insertRecord [("k1", recX5), ("k2", recY5)] recX5).length = 2 := by
  have h := samekey_insert_overwrites_in_place [("k1", recX5), ("k2", recY5)] recX5
    recX5 (by decide) (by decide)
  refine ⟨h.1, h.2.1 "k2" recY5 (by decide) (by decide) (by decide), ?_⟩
  have hlen := h.2.2 ?_
  · exact hlen
  · intro ek ed hed hne
    rcases List.mem_cons.mp hed with heq | hed'
    · have hek : ek = "k1" := congrArg Prod.fst heq
      exact absurd (hek.trans (by decide)) hne
    · rcases List.mem_cons.mp hed' with heq | hed''
      · rw [show ed = recY5 from (congrArg Prod.snd heq)]
        decide
      · cases hed''

/-- C7: loading never raises — missing and corrupt persisted data both load
as the empty store, and a subsequent insert-and-persist on that empty store
succeeds, persisting exactly the one-record store. -/
theorem load_fails_soft_and_recovers :
    getStoredData PersistedState.missing = [] ∧
    getStoredData PersistedState.corrupt = [] ∧
    (∀ r : WeekRecord,
      saveTimesheetData true PersistedState.corrupt r =
        (Except.ok (), PersistedState.valid [(deriveKey r, r)]) ∧
      saveTimesheetData true PersistedState.missing r =
        (Except.ok (), PersistedState.valid [(deriveKey r, r)])) :=
  ⟨rfl, rfl, fun _ => ⟨rfl, rfl⟩⟩

/-- C8: an insert is atomic with respect to the persisted state: on success
the single write stores the fully updated store; on a persistence failure the
error is surfaced and the persisted state — hence what any reader loads — is
exactly what it was. -/
theorem save_atomic_or_error (p : PersistedState) (r : WeekRecord) :
    saveTimesheetData true p r =
      (Except.ok (), PersistedState.valid (insertRecord (getStoredData p) r)) ∧
    saveTimesheetData false p r = (Except.error "QuotaExceededError", p) ∧
    getStoredData (saveTimesheetData false p r).2 = getStoredData p :=
  ⟨rfl, rfl, rfl⟩

/-! Comparator facts for the week-list sort. -/

lemma entryLe_total (p q : String × WeekRecord) (h : entryLe p q = false) :
    entryLe q p = true := by
  unfold entryLe at h ⊢
  rw [decide_eq_false_iff_not, not_le] at h
  rw [decide_eq_true_eq]
  rcases hva : keyVal p.1 with _ | va <;> rcases hvb : keyVal q.1 with _ | vb <;>
    simp only [keyCompare, hva, hvb] at h ⊢ <;> omega

lemma entryLe_trans (p q r : String × WeekRecord)
    (hp : (keyVal p.1).isSome = true) (hq : (keyVal q.1).isSome = true)
    (hr : (keyVal r.1).isSome = true)
    (h1 : entryLe p q = true) (h2 : entryLe q r = true) : entryLe p r = true := by
  obtain ⟨vp, hvp⟩ := Option.isSome_iff_exists.mp hp
  obtain ⟨vq, hvq⟩ := Option.isSome_iff_exists.mp hq
  obtain ⟨vr, hvr⟩ := Option.isSome_iff_exists.mp hr
  unfold entryLe at h1 h2 ⊢
  rw [decide_eq_true_eq] at h1 h2 ⊢
  simp only [keyCompare, hvp, hvq, hvr] at h1 h2 ⊢
  omega

lemma entryLe_antisymm_key (p q : String × WeekRecord)
    (hp : (keyVal p.1).isSome = true) (hq : (keyVal q.1).isSome = true)
    (h1 : entryLe p q = true) (h2 : entryLe q p = true) :
    keyVal p.1 = keyVal q.1 := by
  obtain ⟨vp, hvp⟩ := Option.isSome_iff_exists.mp hp
  obtain ⟨vq, hvq⟩ := Option.isSome_iff_exists.mp hq
  unfold entryLe at h1 h2
  rw [decide_eq_true_eq] at h1 h2
  simp only [keyCompare, hvp, hvq] at h1 h2
  rw [hvp, hvq]
  congr 1
  omega

/-- C4 (amended): `refreshWeekList` returns exactly the store's keys, sorted
descending by the calendar date each key encodes (split on "/", read as
[day, month, year]); insertion order does not affect the result when the
decoded dates are pairwise distinct, and the sample store lists
"15/06/2024" before "01/01/2024" from either insertion order. -/
theorem week_list_sorted_descending :
    (∀ s : Store, List.Perm (refreshWeekList s) (s.map Prod.fst)) ∧
    (∀ s : Store, (∀ k ∈ s.map Prod.fst, (keyVal k).isSome = true) →
      (refreshWeekList s).Pairwise
        (fun a b => ∃ va vb, keyVal a = some va ∧ keyVal b = some vb ∧ vb ≤ va)) ∧
    (∀ s t : Store, List.Perm s t → (s.map Prod.fst).Nodup →
      (∀ k ∈ s.map Prod.fst, (keyVal k).isSome = true) →
      (∀ a b, a ∈ s.map Prod.fst → b ∈ s.map Prod.fst → keyVal a = keyVal b → a = b) →
      refreshWeekList s = refreshWeekList t) ∧
    (refreshWeekList [("15/06/2024", recA), ("01/01/2024", recB)] =
        ["15/06/2024", "01/01/2024"] ∧
     refreshWeekList [("01/01/2024", recB), ("15/06/2024", recA)] =
        ["15/06/2024", "01/01/2024"]) := by
  have hmemS : ∀ (s : Store) (p : String × WeekRecord),
      p ∈ sortByLe entryLe s → p ∈ s :=
    fun s p hp => (perm_sortByLe entryLe s).mem_iff.mp hp
  have hsorted : ∀ s : Store, (∀ k ∈ s.map Prod.fst, (keyVal k).isSome = true) →
      (sortByLe entryLe s).Pairwise (fun p q => entryLe p q = true) := by
    intro s hdec
    refine pairwise_sortByLe entryLe s (fun a b _ _ h => entryLe_total a b h) ?_
    intro a b c ha hb hc h1 h2
    exact entryLe_trans a b c (hdec _ (List.mem_map_of_mem Prod.fst ha))
      (hdec _ (List.mem_map_of_mem Prod.fst hb))
      (hdec _ (List.mem_map_of_mem Prod.fst hc)) h1 h2
  refine ⟨?_, ?_, ?_, by decide, by decide⟩
  · intro s
    exact (perm_sortByLe entryLe s).map _
  · intro s hdec
    unfold refreshWeekList
    rw [List.pairwise_map]
    refine (hsorted s hdec).imp_of_mem ?_
    intro p q hp hq hle
    have hkp := hdec _ (List.mem_map_of_mem Prod.fst (hmemS s p hp))
    have hkq := hdec _ (List.mem_map_of_mem Prod.fst (hmemS s q hq))
    obtain ⟨vp, hvp⟩ := Option.isSome_iff_exists.mp hkp
    obtain ⟨vq, hvq⟩ := Option.isSome_iff_exists.mp hkq
    refine ⟨vp, vq, hvp, hvq, ?_⟩
    unfold entryLe at hle
    rw [decide_eq_true_eq] at hle
    simp only [keyCompare, hvp, hvq] at hle
    omega
  · intro s t hperm hnd hdec hinj
    have hdect : ∀ k ∈ t.map Prod.fst, (keyVal k).isSome = true := by
      intro k hk
      exact hdec k ((hperm.map Prod.fst).mem_iff.mpr hk)
    have hanti : ∀ p q, p ∈ sortByLe entryLe s → q ∈ sortByLe entryLe s →
        entryLe p q = true → entryLe q p = true → p = q := by
      intro p q hp hq h1 h2
      have hps := hmemS s p hp
      have hqs := hmemS s q hq
      have hkp := hdec _ (List.mem_map_of_mem Prod.fst hps)
      have hkq := hdec _ (List.mem_map_of_mem Prod.fst hqs)
      have hkeys : p.1 = q.1 :=
        hinj p.1 q.1 (List.mem_map_of_mem Prod.fst hps)
          (List.mem_map_of_mem Prod.fst hqs)
          (entryLe_antisymm_key p q hkp hkq h1 h2)
      exact entry_unique s hnd p q hps hqs hkeys
    have heq : sortByLe entryLe s = sortByLe entryLe t :=
      eq_of_perm_of_pairwise entryLe _ _ hanti
        ((perm_sortByLe entryLe s).trans (hperm.trans (perm_sortByLe entryLe t).symm))
        (hsorted s hdec) (hsorted t hdect)
    unfold refreshWeekList
    rw [heq]

/-- Witness for C4: the sortedness and order-independence parts applied to
the concrete two-entry store, in both insertion orders. -/
theorem week_list_sorted_descending_witness :
    (refreshWeekList [("15/06/2024", recA), ("01/01/2024", recB)]).Pairwise
      (fun a b => ∃ va vb, keyVal a = some va ∧ keyVal b = some vb ∧ vb ≤ va) ∧
    refreshWeekList [("15/06/2024", recA), ("01/01/2024", recB)] =
      refreshWeekList [("01/01/2024", recB), ("15/06/2024", recA)] := by
  have hdec : ∀ k ∈ ([("15/06/2024", recA), ("01/01/2024", recB)] : Store).map Prod.fst,
      (keyVal k).isSome = true := by
    intro k hk
    rcases List.mem_cons.mp hk with rfl | hk'
    · decide
    · rcases List.mem_cons.mp hk' with rfl | hk''
      · decide
      · cases hk''
  refine ⟨week_list_sorted_descending.2.1 _ hdec,
    week_list_sorted_descending.2.2.1 _ _ (List.Perm.swap _ _ _) (by decide) hdec ?_⟩
  intro a b ha hb hv
  rcases List.mem_cons.mp ha with rfl | ha'
  · rcases List.mem_cons.mp hb with rfl | hb'
    · rfl
    · rcases List.mem_cons.mp hb' with rfl | hb''
      · exact absurd hv (by decide)
      · cases hb''
  · rcases List.mem_cons.mp ha' with rfl | ha''
    · rcases List.mem_cons.mp hb with rfl | hb'
      · exact absurd hv (by decide)
      · rcases List.mem_cons.mp hb' with rfl | hb''
        · rfl
        · cases hb''
    · cases ha''

/-- A two-entry store whose keys "1/1/2024" and "01/01/2024" decode to the
same calendar date. -/
def tieStoreA : Store := [("1/1/2024", recX5), ("01/01/2024", recY5)]

/-- The same two entries in the opposite insertion order. -/
def tieStoreB : Store := [("01/01/2024", recY5), ("1/1/2024", recX5)]

/-- C4 counterexample: insertion order CAN affect the result — two stores
holding the same entries (a permutation) whose keys decode to the same date
list in their respective insertion orders, because the stable sort leaves
tied keys where they were. -/
theorem week_list_insertion_order_counterexample :
    List.Perm tieStoreA tieStoreB ∧
    keyVal "1/1/2024" = keyVal "01/01/2024" ∧
    refreshWeekList tieStoreA = ["1/1/2024", "01/01/2024"] ∧
    refreshWeekList tieStoreB = ["01/01/2024", "1/1/2024"] ∧
    refreshWeekList tieStoreA ≠ refreshWeekList tieStoreB := by
  refine ⟨List.Perm.swap _ _ _, by decide, by decide, by decide, by decide⟩

/-! Helper lemmas about the week display. -/

lemma present_some (s : String) : present (some s) = !(s == "") := rfl

lemma splitChars_ne_nil (sep : Char) : ∀ (l : List Char), splitChars sep l ≠ []
  | [] => by simp [splitChars]
  | c :: cs => by
    unfold splitChars
    cases hg : splitChars sep cs with
    | nil => simp
    | cons g gs => by_cases hc : c = sep <;> simp [hc]

lemma splitChars_no_sep (sep : Char) : ∀ (l : List Char), sep ∉ l → splitChars sep l = [l]
  | [], _ => rfl
  | c :: cs, h => by
    have ih := splitChars_no_sep sep cs (fun hc => h (List.mem_cons_of_mem c hc))
    show (match splitChars sep cs with
      | [] => [[]]
      | g :: gs => if c = sep then [] :: g :: gs else (c :: g) :: gs) = [c :: cs]
    rw [ih]
    show (if c = sep then [] :: cs :: [] else (c :: cs) :: []) = [c :: cs]
    rw [if_neg (by intro hceq; subst hceq; exact h (List.mem_cons_self c cs))]

lemma splitChars_append_sep (sep : Char) :
    ∀ (l rest : List Char), sep ∉ l →
      splitChars sep (l ++ sep :: rest) = l :: splitChars sep rest
  | [], rest, _ => by
    show (match splitChars sep rest with
      | [] => [[]]
      | g :: gs => if sep = sep then [] :: g :: gs else (sep :: g) :: gs) =
      [] :: splitChars sep rest
    cases hg : splitChars sep rest with
    | nil => exact absurd hg (splitChars_ne_nil sep rest)
    | cons g gs =>
      show (if sep = sep then [] :: g :: gs else (sep :: g) :: gs) = [] :: g :: gs
      rw [if_pos rfl]
  | c :: l, rest, h => by
    have ih := splitChars_append_sep sep l rest (fun hc => h (List.mem_cons_of_mem c hc))
    show (match splitChars sep (l ++ sep :: rest) with
      | [] => [[]]
      | g :: gs => if c = sep then [] :: g :: gs else (c :: g) :: gs) =
      (c :: l) :: splitChars sep rest
    rw [ih]
    show (if c = sep then [] :: l :: splitChars sep rest
      else (c :: l) :: splitChars sep rest) = (c :: l) :: splitChars sep rest
    rw [if_neg (by intro hceq; subst hceq; exact h (List.mem_cons_self c l))]

lemma jsNumber_mk (l : List Char) :
    jsNumber (String.mk l) = (digitsVal 0 l).map Int.ofNat := by
  cases l with
  | nil => rfl
  | cons c cs => rfl

/-- The spec's `hoursOf` formula realized by the code's time parser: on a
string built as digits-colon-digits, `_timeToHours` returns H + MM / 60. -/
lemma timeToHours_format (hs ms : List Char) (vh vm : ℕ)
    (hh : ':' ∉ hs) (hm2 : ':' ∉ ms)
    (h1 : digitsVal 0 hs = some vh) (h2 : digitsVal 0 ms = some vm) :
    timeToHours (String.mk (hs ++ ':' :: ms)) = some ((vh : ℚ) + (vm : ℚ) / 60) := by
  unfold timeToHours jsSplit
  rw [show (String.mk (hs ++ ':' :: ms)).toList = hs ++ ':' :: ms from rfl]
  rw [splitChars_append_sep ':' hs ms hh, splitChars_no_sep ':' ms hm2]
  simp only [List.map_cons, List.map_nil, List.get?]
  rw [Option.some_bind, Option.some_bind, jsNumber_mk, jsNumber_mk, h1, h2]
  simp only [Option.map_some']
  rfl

/-- Written from the spec's words (§4.2 `totalHours`): the contribution of
one weekday — `hoursOf(end) - hoursOf(start)` when both `start` and `end`
are present, nothing (zero) otherwise; `none` is a `NaN` value. -/
def specSlotHours (day : DaySlot) : Option ℚ :=
  if present day.start ∧ present day.«end» then
    (timeToHours (day.start.getD "")).bind (fun s =>
      (timeToHours (day.«end».getD "")).map (fun e => e - s))
  else some 0

/-- The code's per-day accumulator step agrees with the spec's per-day
contribution. -/
lemma dayContrib_eq_specSlotHours (day : DaySlot) : dayContrib day = specSlotHours day := by
  unfold dayContrib specSlotHours
  by_cases h : (present day.start && present day.«end») = true
  · rw [if_pos h, if_pos (by simpa [Bool.and_eq_true] using h)]
    cases timeToHours (day.start.getD "") with
    | none => rfl
    | some s =>
      cases timeToHours (day.«end».getD "") with
      | none => rfl
      | some e => rfl
  · rw [if_neg h, if_neg (by simpa [Bool.and_eq_true] using h)]

/-- Unrolling of the five-day loop when every weekday slot is found. -/
lemma buildRows_eq (r : WeekRecord) (mon tue wed thu fri : DaySlot)
    (hm : lookupDay r.days "Monday" = some mon)
    (ht : lookupDay r.days "Tuesday" = some tue)
    (hw : lookupDay r.days "Wednesday" = some wed)
    (hth : lookupDay r.days "Thursday" = some thu)
    (hf : lookupDay r.days "Friday" = some fri) :
    buildRows r = some ([rowOf "Monday" mon, rowOf "Tuesday" tue, rowOf "Wednesday" wed,
      rowOf "Thursday" thu, rowOf "Friday" fri],
      ((((((some (0 : ℚ)).bind (fun t => (dayContrib mon).map (fun c => t + c))).bind
        (fun t => (dayContrib tue).map (fun c => t + c))).bind
        (fun t => (dayContrib wed).map (fun c => t + c))).bind
        (fun t => (dayContrib thu).map (fun c => t + c))).bind
        (fun t => (dayContrib fri).map (fun c => t + c)))) := by
  simp only [buildRows, daysOrder, List.foldl, hm, ht, hw, hth, hf, List.nil_append,
    List.cons_append, List.append_nil]

/-- An off day: no date, times, area or note. -/
def offSlot : DaySlot := { date := none, start := none, «end» := none, area := none, note := none }

/-- A Monday slot working 9:00 to 17:30. -/
def monSlot : DaySlot :=
  { date := some "03/06/2024", start := some "9:00", «end» := some "17:30",
    area := none, note := none }

/-- The sample record: Monday 9:00-17:30, all other weekdays off. -/
def recC3 : WeekRecord :=
  { week_ending := some "07/06/2024", dates := ["03/06/2024"],
    days := [("Monday", monSlot), ("Tuesday", offSlot), ("Wednesday", offSlot),
      ("Thursday", offSlot), ("Friday", offSlot)] }

/-- C3: for a stored record with all five weekday slots, the displayed
`totalHours` is the exact (unrounded) rational sum of the per-day spec
contributions — `hoursOf(end) - hoursOf(start)` where both are present,
added as computed even when negative, zero otherwise — with
`hoursOf("H:MM") = H + MM/60`; the Monday 9:00-17:30 sample totals 8.5. -/
theorem total_hours_is_exact_sum :
    (∀ (stored : Store) (key : String) (r : WeekRecord)
      (mon tue wed thu fri : DaySlot) (q1 q2 q3 q4 q5 : ℚ),
      key ≠ "" →
      lookupKey stored key = some r →
      lookupDay r.days "Monday" = some mon →
      lookupDay r.days "Tuesday" = some tue →
      lookupDay r.days "Wednesday" = some wed →
      lookupDay r.days "Thursday" = some thu →
      lookupDay r.days "Friday" = some fri →
      specSlotHours mon = some q1 → specSlotHours tue = some q2 →
      specSlotHours wed = some q3 → specSlotHours thu = some q4 →
      specSlotHours fri = some q5 →
      displaySelectedWeek stored key = .shown ⟨[rowOf "Monday" mon, rowOf "Tuesday" tue,
        rowOf "Wednesday" wed, rowOf "Thursday" thu, rowOf "Friday" fri],
        some (q1 + q2 + q3 + q4 + q5)⟩) ∧
    (∀ day, dayContrib day = specSlotHours day) ∧
    (∀ (day : DaySlot) (qs qe : ℚ),
      present day.start = true → present day.«end» = true →
      timeToHours (day.start.getD "") = some qs →
      timeToHours (day.«end».getD "") = some qe →
      specSlotHours day = some (qe - qs)) ∧
    (∀ day : DaySlot, ¬(present day.start = true ∧ present day.«end» = true) →
      specSlotHours day = some 0) ∧
    (∀ (hs ms : List Char) (vh vm : ℕ), ':' ∉ hs → ':' ∉ ms →
      digitsVal 0 hs = some vh → digitsVal 0 ms = some vm →
      timeToHours (String.mk (hs ++ ':' :: ms)) = some ((vh : ℚ) + (vm : ℚ) / 60)) ∧
    (displaySelectedWeek [("07/06/2024", recC3)] "07/06/2024" =
      .shown ⟨[⟨"Monday", "03/06/2024", "9:00 - 17:30", ""⟩, ⟨"Tuesday", "", "Off", ""⟩,
        ⟨"Wednesday", "", "Off", ""⟩, ⟨"Thursday", "", "Off", ""⟩,
        ⟨"Friday", "", "Off", ""⟩], some (17/2 : ℚ)⟩) := by
  refine ⟨?_, dayContrib_eq_specSlotHours, ?_, ?_, timeToHours_format, ?_⟩
  · intro stored key r mon tue wed thu fri q1 q2 q3 q4 q5 hkey hlook hm ht hw hth hf
      h1 h2 h3 h4 h5
    have hb := buildRows_eq r mon tue wed thu fri hm ht hw hth hf
    rw [dayContrib_eq_specSlotHours, dayContrib_eq_specSlotHours,
      dayContrib_eq_specSlotHours, dayContrib_eq_specSlotHours,
      dayContrib_eq_specSlotHours, h1, h2, h3, h4, h5] at hb
    simp only [Option.some_bind, Option.map_some'] at hb
    have hkb : (key == "") = false := by simpa using hkey
    simp only [displaySelectedWeek, hkb, Bool.false_eq_true, if_false, hlook, hb]
    refine congrArg DisplayOutcome.shown ?_
    refine congrArg₂ WeekDisplay.mk rfl ?_
    refine congrArg some ?_
    ring
  · intro day qs qe hps hpe hts hte
    unfold specSlotHours
    rw [if_pos ⟨hps, hpe⟩, hts, Option.some_bind, hte, Option.map_some']
  · intro day h
    unfold specSlotHours
    rw [if_neg (by simpa using h)]
  · have h : displaySelectedWeek [("07/06/2024", recC3)] "07/06/2024" =
        .shown ⟨[⟨"Monday", "03/06/2024", "9:00 - 17:30", ""⟩, ⟨"Tuesday", "", "Off", ""⟩,
          ⟨"Wednesday", "", "Off", ""⟩, ⟨"Thursday", "", "Off", ""⟩,
          ⟨"Friday", "", "Off", ""⟩],
        some ((((0 + ((17 : ℚ) + (30 : ℚ) / 60 - ((9 : ℚ) + (0 : ℚ) / 60))) + 0 + 0) + 0) + 0)⟩ :=
      rfl
    rw [h]
    refine congrArg DisplayOutcome.shown ?_
    refine congrArg₂ WeekDisplay.mk rfl ?_
    refine congrArg some ?_
    norm_num

/-- Witness for C3: the sum conjunct applied to the one-record store holding
`recC3`, with each hypothesis discharged at the concrete slots. -/
theorem total_hours_is_exact_sum_witness :
    displaySelectedWeek [("07/06/2024", recC3)] "07/06/2024" =
      .shown ⟨[rowOf "Monday" monSlot, rowOf "Tuesday" offSlot, rowOf "Wednesday" offSlot,
        rowOf "Thursday" offSlot, rowOf "Friday" offSlot],
        some ((((17 : ℚ) + (30 : ℚ) / 60 - ((9 : ℚ) + (0 : ℚ) / 60)) + 0 + 0 + 0 + 0))⟩ :=
  total_hours_is_exact_sum.1 [("07/06/2024", recC3)] "07/06/2024" recC3
    monSlot offSlot offSlot offSlot offSlot
    ((17 : ℚ) + (30 : ℚ) / 60 - ((9 : ℚ) + (0 : ℚ) / 60)) 0 0 0 0
    (by decide) rfl rfl rfl rfl rfl rfl rfl rfl rfl rfl rfl

/-- C6: the texts of each weekday row produced by the display: `timeText` is
"Off" with neither time, the bare `start` with only it, "start - end" with
both; `notesText` joins `area` and `note` with ", " when both are present and
emits just the present one (no separator) otherwise; and for a record with
all five weekday slots the display consists of exactly these rows. -/
theorem row_time_and_notes_texts :
    (∀ (name : String) (day : DaySlot),
      present day.start = false → present day.«end» = false →
      (rowOf name day).timeText = "Off") ∧
    (∀ (name : String) (day : DaySlot) (s : String),
      day.start = some s → s ≠ "" → present day.«end» = false →
      (rowOf name day).timeText = s) ∧
    (∀ (name : String) (day : DaySlot) (s e : String),
      day.start = some s → s ≠ "" → day.«end» = some e → e ≠ "" →
      (rowOf name day).timeText = s ++ " - " ++ e) ∧
    (∀ (name : String) (day : DaySlot) (a n : String),
      day.area = some a → a ≠ "" → day.note = some n → n ≠ "" →
      (rowOf name day).notesText = a ++ ", " ++ n) ∧
    (∀ (name : String) (day : DaySlot) (a : String),
      day.area = some a → a ≠ "" → present day.note = false →
      (rowOf name day).notesText = a) ∧
    (∀ (name : String) (day : DaySlot) (n : String),
      present day.area = false → day.note = some n → n ≠ "" →
      (rowOf name day).notesText = n) ∧
    (∀ (name : String) (day : DaySlot),
      present day.area = false → present day.note = false →
      (rowOf name day).notesText = "") ∧
    (∀ (stored : Store) (key : String) (r : WeekRecord)
      (mon tue wed thu fri : DaySlot),
      key ≠ "" → lookupKey stored key = some r →
      lookupDay r.days "Monday" = some mon →
      lookupDay r.days "Tuesday" = some tue →
      lookupDay r.days "Wednesday" = some wed →
      lookupDay r.days "Thursday" = some thu →
      lookupDay r.days "Friday" = some fri →
      ∃ total, displaySelectedWeek stored key = .shown ⟨[rowOf "Monday" mon,
        rowOf "Tuesday" tue, rowOf "Wednesday" wed, rowOf "Thursday" thu,
        rowOf "Friday" fri], total⟩) := by
  refine ⟨?_, ?_, ?_, ?_, ?_, ?_, ?_, ?_⟩
  · intro name day hs he
    simp [rowOf, hs, he]
  · intro name day s hs hsne he
    simp [rowOf, present_some, hs, hsne, he]
  · intro name day s e hs hsne he hene
    simp [rowOf, present_some, hs, he, hsne, hene]
  · intro name day a n ha hane hn hnne
    simp [rowOf, present_some, ha, hn, hane, hnne]
    rfl
  · intro name day a ha hane hn
    simp [rowOf, present_some, ha, hane, hn]
    rfl
  · intro name day n ha hn hnne
    simp [rowOf, present_some, ha, hn, hnne]
    rfl
  · intro name day ha hn
    simp [rowOf, ha, hn]
    rfl
  · intro stored key r mon tue wed thu fri hkey hlook hm ht hw hth hf
    have hb := buildRows_eq r mon tue wed thu fri hm ht hw hth hf
    have hkb : (key == "") = false := by simpa using hkey
    have hshow : displaySelectedWeek stored key = .shown ⟨[rowOf "Monday" mon,
        rowOf "Tuesday" tue, rowOf "Wednesday" wed, rowOf "Thursday" thu,
        rowOf "Friday" fri],
        ((((((some (0 : ℚ)).bind (fun t => (dayContrib mon).map (fun c => t + c))).bind
          (fun t => (dayContrib tue).map (fun c => t + c))).bind
          (fun t => (dayContrib wed).map (fun c => t + c))).bind
          (fun t => (dayContrib thu).map (fun c => t + c))).bind
          (fun t => (dayContrib fri).map (fun c => t + c)))⟩ := by
      simp only [displaySelectedWeek, hkb, Bool.false_eq_true, if_false, hlook, hb]
    exact ⟨_, hshow⟩

/-- A day with an area and a note but no times. -/
def notedSlot : DaySlot :=
  { date := none, start := none, «end» := none,
    area := some "Downtown", note := some "Training" }

/-- Witness for C6: the text conjuncts applied to `monSlot` (both times),
`notedSlot` (area and note, no times) and `offSlot`, and the row-list
conjunct applied to the `recC3` store. -/
theorem row_time_and_notes_texts_witness :
    (rowOf "Monday" monSlot).timeText = "9:00" ++ " - " ++ "17:30" ∧
    (rowOf "Tuesday" notedSlot).timeText = "Off" ∧
    (rowOf "Tuesday" notedSlot).notesText = "Downtown" ++ ", " ++ "Training" ∧
    (rowOf "Wednesday" offSlot).notesText = "" ∧
    (∃ total, displaySelectedWeek [("07/06/2024", recC3)] "07/06/2024" =
      .shown ⟨[rowOf "Monday" monSlot, rowOf "Tuesday" offSlot, rowOf "Wednesday" offSlot,
        rowOf "Thursday" offSlot, rowOf "Friday" offSlot], total⟩) :=
  ⟨row_time_and_notes_texts.2.2.1 "Monday" monSlot "9:00" "17:30" rfl (by decide) rfl
      (by decide),
   row_time_and_notes_texts.1 "Tuesday" notedSlot rfl rfl,
   row_time_and_notes_texts.2.2.2.1 "Tuesday" notedSlot "Downtown" "Training" rfl
      (by decide) rfl (by decide),
   row_time_and_notes_texts.2.2.2.2.2.2.1 "Wednesday" offSlot rfl rfl,
   row_time_and_notes_texts.2.2.2.2.2.2.2 [("07/06/2024", recC3)] "07/06/2024" recC3
      monSlot offSlot offSlot offSlot offSlot (by decide) rfl rfl rfl rfl rfl rfl⟩

/-- C9: a weekday slot with an end time but no start time renders as "Off"
(the end time is never shown alone) and contributes zero to the total — the
case the spec's split does not cover behaves like an off day. -/
theorem end_only_slot_is_off_and_adds_nothing (name : String) (day : DaySlot)
    (hs : present day.start = false) (he : present day.«end» = true) :
    (rowOf name day).timeText = "Off" ∧ dayContrib day = some 0 := by
  constructor
  · simp [rowOf, hs]
  · simp [dayContrib, hs]

/-- A slot with only an end time. -/
def endOnlySlot : DaySlot :=
  { date := none, start := none, «end» := some "17:00", area := none, note := none }

/-- Witness for C9 at the end-only slot. -/
theorem end_only_slot_is_off_and_adds_nothing_witness :
    (rowOf "Monday" endOnlySlot).timeText = "Off" ∧ dayContrib endOnlySlot = some 0 :=
  end_only_slot_is_off_and_adds_nothing "Monday" endOnlySlot rfl rfl

/-- C10: the display dereferences `weekData.days[dayName]` for the five
weekdays with no guard: an absent key (or empty selection) hides the results
section without failing; with the record present, the display is produced
exactly when every one of Monday..Friday has a slot, and a missing weekday
slot aborts with the uncaught `TypeError`. -/
theorem display_requires_all_weekday_slots :
    (∀ (stored : Store) (key : String), lookupKey stored key = none →
      displaySelectedWeek stored key = .noDisplay) ∧
    (∀ (stored : Store) (key : String) (r : WeekRecord) (mon tue wed thu fri : DaySlot),
      key ≠ "" → lookupKey stored key = some r →
      lookupDay r.days "Monday" = some mon →
      lookupDay r.days "Tuesday" = some tue →
      lookupDay r.days "Wednesday" = some wed →
      lookupDay r.days "Thursday" = some thu →
      lookupDay r.days "Friday" = some fri →
      ∃ d, displaySelectedWeek stored key = .shown d) ∧
    (∀ (stored : Store) (key : String) (r : WeekRecord),
      key ≠ "" → lookupKey stored key = some r →
      (lookupDay r.days "Monday" = none ∨ lookupDay r.days "Tuesday" = none ∨
       lookupDay r.days "Wednesday" = none ∨ lookupDay r.days "Thursday" = none ∨
       lookupDay r.days "Friday" = none) →
      displaySelectedWeek stored key = .jsError) := by
  refine ⟨?_, ?_, ?_⟩
  · intro stored key h
    unfold displaySelectedWeek
    cases hk : (key == "") with
    | true => rw [if_pos rfl]
    | false => rw [if_neg Bool.false_ne_true, h]
  · intro stored key r mon tue wed thu fri hkey hlook hm ht hw hth hf
    have hb := buildRows_eq r mon tue wed thu fri hm ht hw hth hf
    have hkb : (key == "") = false := by simpa using hkey
    have hshow : displaySelectedWeek stored key = .shown ⟨[rowOf "Monday" mon,
        rowOf "Tuesday" tue, rowOf "Wednesday" wed, rowOf "Thursday" thu,
        rowOf "Friday" fri],
        ((((((some (0 : ℚ)).bind (fun t => (dayContrib mon).map (fun c => t + c))).bind
          (fun t => (dayContrib tue).map (fun c => t + c))).bind
          (fun t => (dayContrib wed).map (fun c => t + c))).bind
          (fun t => (dayContrib thu).map (fun c => t + c))).bind
          (fun t => (dayContrib fri).map (fun c => t + c)))⟩ := by
      simp only [displaySelectedWeek, hkb, Bool.false_eq_true, if_false, hlook, hb]
    exact ⟨_, hshow⟩
  · intro stored key r hkey hlook hmiss
    have hkb : (key == "") = false := by simpa using hkey
    have hbr : buildRows r = none := by
      rcases hmiss with h | h | h | h | h
      · simp [buildRows, daysOrder, h]
      · cases hm : lookupDay r.days "Monday" with
        | none => simp [buildRows, daysOrder, hm]
        | some mon => simp [buildRows, daysOrder, hm, h]
      · cases hm : lookupDay r.days "Monday" with
        | none => simp [buildRows, daysOrder, hm]
        | some mon =>
          cases ht : lookupDay r.days "Tuesday" with
          | none => simp [buildRows, daysOrder, hm, ht]
          | some tue => simp [buildRows, daysOrder, hm, ht, h]
      · cases hm : lookupDay r.days "Monday" with
        | none => simp [buildRows, daysOrder, hm]
        | some mon =>
          cases ht : lookupDay r.days "Tuesday" with
          | none => simp [buildRows, daysOrder, hm, ht]
          | some tue =>
            cases hw : lookupDay r.days "Wednesday" with
            | none => simp [buildRows, daysOrder, hm, ht, hw]
            | some wed => simp [buildRows, daysOrder, hm, ht, hw, h]
      · cases hm : lookupDay r.days "Monday" with
        | none => simp [buildRows, daysOrder, hm]
        | some mon =>
          cases ht : lookupDay r.days "Tuesday" with
          | none => simp [buildRows, daysOrder, hm, ht]
          | some tue =>
            cases hw : lookupDay r.days "Wednesday" with
            | none => simp [buildRows, daysOrder, hm, ht, hw]
            | some wed =>
              cases hth : lookupDay r.days "Thursday" with
              | none => simp [buildRows, daysOrder, hm, ht, hw, hth]
              | some thu => simp [buildRows, daysOrder, hm, ht, hw, hth, h]
    simp only [displaySelectedWeek, hkb, Bool.false_eq_true, if_false, hlook, hbr]

/-- A stored record missing its Tuesday (and later) slots. -/
def recMissingDays : WeekRecord :=
  { week_ending := some "07/06/2024", dates := [], days := [("Monday", offSlot)] }

/-- Witness for C10: no display on an absent key, a display for the complete
`recC3`, and the `TypeError` outcome for `recMissingDays`. -/
theorem display_requires_all_weekday_slots_witness :
    displaySelectedWeek [] "07/06/2024" = DisplayOutcome.noDisplay ∧
    (∃ d, displaySelectedWeek [("07/06/2024", recC3)] "07/06/2024" =
      DisplayOutcome.shown d) ∧
    displaySelectedWeek [("07/06/2024", recMissingDays)] "07/06/2024" =
      DisplayOutcome.jsError :=
  ⟨display_requires_all_weekday_slots.1 [] "07/06/2024" rfl,
   display_requires_all_weekday_slots.2.1 [("07/06/2024", recC3)] "07/06/2024" recC3
     monSlot offSlot offSlot offSlot offSlot (by decide) rfl rfl rfl rfl rfl rfl,
   display_requires_all_weekday_slots.2.2 [("07/06/2024", recMissingDays)] "07/06/2024"
     recMissingDays (by decide) rfl (Or.inr (Or.inl rfl))⟩

end Timesheet
